import Mathlib
set_option maxRecDepth 10000

/-!
Verification of the retrieval and citation core of the smart-document-search
system, as a shallow embedding in Lean 4.

JavaScript strings are modelled as `List Char`, JS numbers appearing as
character offsets as `Int`, and chunk relevance scores as `ℚ`.  Absent or
non-string / non-numeric object fields are modelled with `Option`; JS
string truthiness (`if (s)`) is "present and non-empty".

Embedded source files:
* `src/controllers/docsController.js` (citations utilities):
  `sanitizeQuote`, `findMatchingChunk`, `validateCitation`, `buildBasedOnDocs`.
* the retrieval service (`retrieveChunks`, `scoreChunk`, `getDocumentText`)
  and the normalization utilities (`normalizeText`, `extractKeywords`).
* `documentsRepo` is a read-only corpus plus a fallible keyword-search
  collaborator, modelled by the `Repo` structure.
* `chunkText` (src/utils/chunkText.js) is not part of the source snapshot;
  it is modelled from the spec, see `chunkText` below.
-/

/-- Whitespace class used by the JS regexes `\s` and by `String.prototype.trim`,
restricted to the ASCII range (space, tab, line feed, carriage return,
vertical tab, form feed); the embedding does not model the additional
Unicode space code points. -/
def isJsWs (c : Char) : Bool :=
  c == ' ' || c == '\t' || c == '\n' || c == '\r' || c == Char.ofNat 11 || c == Char.ofNat 12

/-- Embedding of `text.replace(/\s+/g, ' ')`: every maximal run of whitespace
characters becomes a single space. -/
def collapseWs : List Char → List Char
  | [] => []
  | [c] => if isJsWs c then [' '] else [c]
  | c :: d :: rest =>
    if isJsWs c then
      if isJsWs d then collapseWs (d :: rest) else ' ' :: collapseWs (d :: rest)
    else c :: collapseWs (d :: rest)

/-- Embedding of `String.prototype.trim` (drop leading and trailing whitespace). -/
def trimChars (s : List Char) : List Char :=
  (((s.dropWhile isJsWs).reverse).dropWhile isJsWs).reverse

/-- Embedding of `String.prototype.toLowerCase` (ASCII range). -/
def lowerStr (s : List Char) : List Char :=
  s.map Char.toLower

/-- Helper for `containsSub`: does `needle` occur at the head of the list. -/
def listStartsWith : List Char → List Char → Bool
  | _, [] => true
  | [], _ :: _ => false
  | a :: as, b :: bs => a == b && listStartsWith as bs

/-- Embedding of `String.prototype.includes`: does `needle` occur as a
contiguous substring of `hay`. -/
def containsSub : List Char → List Char → Bool
  | hay, needle =>
    if listStartsWith hay needle then true
    else
      match hay with
      | [] => false
      | _ :: t => containsSub t needle

/-- Embedding of `str.slice(a, b)` for the non-negative index arguments that
occur at the embedded call sites (characters in the half-open range `[a, b)`,
clipped to the string; empty when `a ≥ b`). -/
def jsSlice (t : List Char) (a b : Int) : List Char :=
  (t.take b.toNat).drop a.toNat

/-! ## Citations utilities (src/controllers/docsController.js) -/

/-- A chunk as produced by the retrieval service and consumed by the
citations utilities: `{chunkId, docId, docName, text, startChar, endChar,
score}`, all fields present and typed (the retrieval service always sets
them, and `score` is the rational coverage ratio from `scoreChunk`). -/
structure Chunk where
  chunkId : List Char
  docId : List Char
  docName : List Char
  text : List Char
  startChar : Int
  endChar : Int
  score : ℚ
deriving DecidableEq

/-- A citation claimed by the LLM: an untrusted JS object whose fields may be
absent or of the wrong type; `none` models an absent, null, or wrongly-typed
field (for the numeric fields, also a non-finite number). -/
structure ClaimedCitation where
  chunkId : Option (List Char)
  docId : Option (List Char)
  startChar : Option Int
  endChar : Option Int
  quote : Option (List Char)
deriving DecidableEq

/-- A validated output citation `{docId, docName, chunkId, startChar,
endChar, quote}`. -/
structure Citation where
  docId : List Char
  docName : List Char
  chunkId : List Char
  startChar : Int
  endChar : Int
  quote : List Char
deriving DecidableEq

/-- JS truthiness of an optional string field: present and non-empty
(models `typeof x === 'string' && x`). -/
def truthyStr : Option (List Char) → Bool
  | some s => !s.isEmpty
  | none => false

/-- Embedding of `sanitizeQuote(text, maxLen = 200)`: collapse whitespace,
trim, then cap the length at `maxLen`. -/
def sanitizeQuote (text : List Char) (maxLen : Nat) : List Char :=
  let cleaned := trimChars (collapseWs text)
  if maxLen < cleaned.length then cleaned.take maxLen else cleaned

/-- Embedding of `findMatchingChunk(c, retrievedChunks)`.  The
`isFiniteNumber(ch.startChar)`/`isFiniteNumber(ch.endChar)` guards of the
source are always true here because retrieved chunks carry numeric offsets
by construction (`Chunk.startChar`/`Chunk.endChar` are total). -/
def findMatchingChunk (c : ClaimedCitation) (retrievedChunks : List Chunk) : Option Chunk :=
  if retrievedChunks.isEmpty then none
  else if truthyStr c.chunkId then
    retrievedChunks.find? (fun ch => some ch.chunkId == c.chunkId)
  else if truthyStr c.docId then
    match c.startChar, c.endChar with
    | some s, some e =>
      retrievedChunks.find? (fun ch =>
        (some ch.docId == c.docId) && decide (ch.startChar ≤ s) && decide (e ≤ ch.endChar))
    | _, _ => none
  else none

/-- Embedding of `validateCitation(c, retrievedChunks)`: discard the claim
unless a retrieved chunk matches; clamp the character range against the
matched chunk; derive the quote with priority LLM quote, then a slice of
the chunk text at the clamped offsets, then the chunk preview. -/
def validateCitation (c : ClaimedCitation) (retrievedChunks : List Chunk) : Option Citation :=
  match findMatchingChunk c retrievedChunks with
  | none => none
  | some chunk =>
    let startChar : Int :=
      match c.startChar with
      | some s => max chunk.startChar s
      | none => chunk.startChar
    let endChar : Int :=
      match c.endChar with
      | some e => min chunk.endChar e
      | none => chunk.endChar
    let quote0 := sanitizeQuote (c.quote.getD []) 200
    let quote :=
      if quote0.isEmpty && !chunk.text.isEmpty then
        let localStart : Int := max 0 (startChar - chunk.startChar)
        let localEnd : Int :=
          min (chunk.text.length : Int) (max localStart (endChar - chunk.startChar))
        let q1 := sanitizeQuote (jsSlice chunk.text localStart localEnd) 200
        if q1.isEmpty then sanitizeQuote (chunk.text.take 200) 200 else q1
      else quote0
    some { docId := chunk.docId, docName := chunk.docName, chunkId := chunk.chunkId,
           startChar := startChar, endChar := max startChar endChar, quote := quote }

/-- The per-chunk fallback conversion used by `buildBasedOnDocs` (the
`safeRetrieved.slice(0, limit).map(...)` body). -/
def chunkToCitation (ch : Chunk) : Citation :=
  { docId := ch.docId, docName := ch.docName, chunkId := ch.chunkId,
    startChar := ch.startChar, endChar := ch.endChar,
    quote := sanitizeQuote (ch.text.take 200) 200 }

/-- The citation limit `Math.max(0, Math.min(parseInt(maxCitations) || 3, 10))`
of `buildBasedOnDocs` (`maxCitations = 0` is falsy and yields the default 3). -/
def effLimit (maxCitations : Int) : Nat :=
  (max 0 (min (if maxCitations = 0 then 3 else maxCitations) 10)).toNat

/-- The validation loop of `buildBasedOnDocs`: validate each claimed citation
in order, skip duplicates by `chunkId` (the `seen` set), and stop once
`validated.length >= limit` — checked after the push, so the first valid
citation is kept even when `limit = 0`.  `count` is the number of citations
pushed so far. -/
def validateLoop (retrieved : List Chunk) (limit : Nat) :
    List ClaimedCitation → List (List Char) → Nat → List Citation
  | [], _, _ => []
  | c :: rest, seen, count =>
    match validateCitation c retrieved with
    | none => validateLoop retrieved limit rest seen count
    | some v =>
      if seen.contains v.chunkId then
        validateLoop retrieved limit rest seen count
      else if limit ≤ count + 1 then [v]
      else v :: validateLoop retrieved limit rest (v.chunkId :: seen) (count + 1)

/-- The `validated` list of `buildBasedOnDocs`: empty unless `llmCitations`
is a non-empty array (`Array.isArray(llmCitations) && llmCitations.length > 0`),
in which case the validation loop runs with an empty `seen` set. -/
def validatedOf (llmCitations : Option (List ClaimedCitation))
    (retrievedChunks : List Chunk) (limit : Nat) : List Citation :=
  match llmCitations with
  | some l => if l.isEmpty then [] else validateLoop retrievedChunks limit l [] 0
  | none => []

/-- Embedding of `buildBasedOnDocs({llmCitations, retrievedChunks,
maxCitations})`.  `llmCitations = none` models a missing or non-array value;
a non-array `retrievedChunks` is modelled by the empty list (the source
replaces it by `[]`).  The surrounding `try/catch` never fires in the
embedding because every embedded operation is total. -/
def buildBasedOnDocs (llmCitations : Option (List ClaimedCitation))
    (retrievedChunks : List Chunk) (maxCitations : Int) : List Citation :=
  let limit := effLimit maxCitations
  let validated := validatedOf llmCitations retrievedChunks limit
  if !validated.isEmpty then validated
  else (retrievedChunks.take limit).map chunkToCitation

/-! ## Text normalization and keyword extraction (src/utils/normalize.js) -/

/-- Embedding of `normalizeText(text)`: lowercase, trim, collapse whitespace
runs to single spaces (in that order). -/
def normalizeText (text : List Char) : List Char :=
  collapseWs (trimChars (lowerStr text))

/-- Split a character list on whitespace runs, producing the non-empty
tokens (the behaviour of `normalized.split(/\s+/)` once empty tokens are
removed; the only possible empty token, from the empty string, is removed
by the length filter of `extractKeywords` anyway). `cur` accumulates the
current token in reverse. -/
def splitWsAux : List Char → List Char → List (List Char)
  | [], cur => if cur.isEmpty then [] else [cur.reverse]
  | c :: rest, cur =>
    if isJsWs c then
      if cur.isEmpty then splitWsAux rest [] else cur.reverse :: splitWsAux rest []
    else splitWsAux rest (c :: cur)

/-- Split on whitespace runs. -/
def splitWs (s : List Char) : List (List Char) :=
  splitWsAux s []

/-- The stop-word set of `extractKeywords` (basic Turkish/English list). -/
def stopWords : List (List Char) :=
  ([ "ve", "ile", "bir", "bu", "şu", "o", "da", "de", "ki", "mi", "mu", "mü",
     "the", "a", "an", "and", "or", "but", "in", "on", "at", "to", "for", "of",
     "with", "by", "is", "are", "was", "were", "be", "been", "have", "has",
     "had", "do", "does", "did", "will", "would", "could", "should" ]).map
    String.toList

/-- Embedding of `extractKeywords(text)`: normalize, split on whitespace,
drop words shorter than 2 characters and stop words. -/
def extractKeywords (text : List Char) : List (List Char) :=
  (splitWs (normalizeText text)).filter
    (fun word => decide (2 ≤ word.length) && !stopWords.contains word)

/-! ## Chunk scoring (retrieval service) -/

/-- The keyword-match count of `scoreChunk`: the number of keyword list
entries (counted with multiplicity) that occur as a case-insensitive
substring of the chunk text. -/
def countMatches (text : List Char) (questionKeywords : List (List Char)) : Nat :=
  (questionKeywords.filter (fun kw => containsSub (lowerStr text) (lowerStr kw))).length

/-- Embedding of `scoreChunk(chunkText, questionKeywords)`: 0 for an empty
keyword list, otherwise the matched-entry count divided by the number of
entries. -/
def scoreChunk (chunkText : List Char) (questionKeywords : List (List Char)) : ℚ :=
  if questionKeywords.isEmpty then 0
  else (countMatches chunkText questionKeywords : ℚ) / (questionKeywords.length : ℚ)

/-- The scoring formula as worded by the specification, for comparison with
the implementation: the number of distinct keywords that occur as a
case-insensitive substring of the chunk text, divided by the number of
keywords. -/
def scoreChunkDistinct (chunkText : List Char) (questionKeywords : List (List Char)) : ℚ :=
  if questionKeywords.isEmpty then 0
  else
    ((questionKeywords.dedup.filter
        (fun kw => containsSub (lowerStr chunkText) (lowerStr kw))).length : ℚ)
      / (questionKeywords.length : ℚ)

/-! ## Chunker -/

/-- A text window produced by the chunker: `{text, startChar, endChar}`. -/
structure TextWindow where
  text : List Char
  startChar : Nat
  endChar : Nat
deriving DecidableEq

/-- Fuel-indexed loop for `chunkText`; `fuel = t.length` suffices because
the window start advances by `step ≥ 1` each iteration. -/
def chunkLoop (t : List Char) (size step : Nat) : Nat → Nat → List TextWindow
  | 0, _ => []
  | fuel + 1, start =>
    if start < t.length then
      { text := (t.drop start).take size, startChar := start,
        endChar := min (start + size) t.length }
        :: chunkLoop t size step fuel (start + step)
    else []

/-- Modelled from the spec: the chunker `chunk(text, size, overlap)` of
src/utils/chunkText.js, which is absent from the source snapshot (only its
caller in the retrieval service is present).  Per the spec: windows of
`size` characters advance by `size - overlap` characters (at least 1, to
guarantee termination when `size ≤ overlap`), the final window is clipped
to the text length, and empty text yields an empty sequence.  The claims
proved below do not depend on the window geometry, only on the order of the
produced windows. -/
def chunkText (t : List Char) (size overlap : Nat) : List TextWindow :=
  chunkLoop t size (max 1 (size - overlap)) t.length 0

/-! ## Documents and the repository collaborator -/

/-- A stored document as returned by the documents repository.
`contentText` is the cached extracted text (`''` models an absent
`content_text` column) and `extractedText` is the outcome of the external
extraction collaborator for this document's file (`none` models an
extraction failure, which `getDocumentText` converts to `''`). -/
structure Doc where
  id : List Char
  originalName : List Char
  contentText : List Char
  extractedText : Option (List Char)
deriving DecidableEq

/-- The read-only document corpus plus the keyword-search collaborator.
`docs` lists every document, most recently created first (the repository
reads them with `ORDER BY created_at DESC`).  `searchIds query limit` is
`searchDocumentsByKeyword(query, {limit, offset: 0, docId: null})`
abstracted to the ordered list of result ids; `Except.error` models the
collaborator throwing. -/
structure Repo where
  docs : List Doc
  searchIds : List Char → Nat → Except Unit (List (List Char))

/-- Embedding of `documentsRepo.getDocumentById(id)` over the corpus
(document ids are unique, so the first row is the row). -/
def Repo.getDocumentById (r : Repo) (i : List Char) : Option Doc :=
  r.docs.find? (fun d => d.id == i)

/-- Embedding of `documentsRepo.listDocuments({limit, offset: 0})`: the
`limit` most recently created documents. -/
def Repo.listDocuments (r : Repo) (limit : Nat) : List Doc :=
  r.docs.take limit

/-- Embedding of `getDocumentText(doc)`: prefer the cached `contentText`
when non-blank, otherwise the extraction collaborator's text, with an
extraction failure caught and converted to `''`. -/
def getDocumentText (d : Doc) : List Char :=
  if !(trimChars d.contentText).isEmpty then d.contentText
  else d.extractedText.getD []

/-! ## Retrieval (retrieval service `retrieveChunks`) -/

/-- The chunk records pushed onto `allChunks` for one document: window `i`
becomes `{chunkId: docId_chunk_i, docId, docName, text, startChar, endChar,
score}`. -/
def docChunksFrom (d : Doc) (keywords : List (List Char)) :
    Nat → List TextWindow → List Chunk
  | _, [] => []
  | i, w :: ws =>
    { chunkId := d.id ++ ("_chunk_").toList ++ (Nat.repr i).toList,
      docId := d.id, docName := d.originalName, text := w.text,
      startChar := (w.startChar : Int), endChar := (w.endChar : Int),
      score := scoreChunk w.text keywords }
      :: docChunksFrom d keywords (i + 1) ws

/-- The chunks contributed by one candidate document: blank text contributes
nothing, otherwise `chunkText(text, 1000, 100)` tagged with metadata and
scores.  The per-document `try/catch` of the source never fires in the
embedding (extraction failure is already absorbed by `getDocumentText`). -/
def mkDocChunks (d : Doc) (keywords : List (List Char)) : List Chunk :=
  let text := getDocumentText d
  if (trimChars text).isEmpty then []
  else docChunksFrom d keywords 0 (chunkText text 1000 100)

/-- All chunks of all candidate documents, in discovery order
(candidate-document order, then chunk index within the document). -/
def processDocs (candidates : List Doc) (keywords : List (List Char)) : List Chunk :=
  candidates.flatMap (fun d => mkDocChunks d keywords)

/-- The search query sent to the collaborator: the first 3 keywords joined
by spaces. -/
def searchQueryOf (keywords : List (List Char)) : List Char :=
  List.intercalate [' '] (keywords.take 3)

/-- Candidate-document selection of `retrieveChunks`.  `none` is the early
`return []` for a truthy `docId` naming no document.  Otherwise: with a
truthy `docId`, exactly that document; else documents found by keyword
search (a thrown search, an empty result list, and result ids naming no
documents all leave the search candidates empty), falling back to the
`docLimit` most recent documents, finally capped at `docLimit`. -/
def candidateDocsOf (repo : Repo) (question : List Char) (docLimit : Nat)
    (docId : Option (List Char)) : Option (List Doc) :=
  let questionKeywords := extractKeywords question
  if truthyStr docId then
    match repo.getDocumentById (docId.getD []) with
    | some doc => some [doc]
    | none => none
  else
    let fromSearch :=
      if questionKeywords.isEmpty then []
      else
        match repo.searchIds (searchQueryOf questionKeywords) docLimit with
        | Except.ok ids => ids.filterMap repo.getDocumentById
        | Except.error _ => []
    some ((if fromSearch.isEmpty then repo.listDocuments docLimit else fromSearch).take docLimit)

/-- The `allChunks` list of `retrieveChunks` before sorting, in discovery
order. -/
def discoveredChunks (repo : Repo) (question : List Char) (docLimit : Nat)
    (docId : Option (List Char)) : List Chunk :=
  match candidateDocsOf repo question docLimit docId with
  | none => []
  | some candidates => processDocs candidates (extractKeywords question)

/-- Stable insertion of a chunk in descending score order: the inserted
(earlier-discovered) chunk goes before the first resident chunk whose score
does not exceed it. -/
def insertChunkDesc (x : Chunk) : List Chunk → List Chunk
  | [] => [x]
  | y :: ys => if x.score < y.score then y :: insertChunkDesc x ys else x :: y :: ys

/-- Embedding of `allChunks.sort((a, b) => b.score - a.score)`.  ECMAScript
`Array.prototype.sort` is specified to be stable, and this comparator is
consistent (it returns 0 exactly on equal scores), so the source sort
produces the unique descending-by-score permutation in which equal-score
chunks keep their relative order; a stable descending insertion sort
produces the same list. -/
def sortChunksDesc : List Chunk → List Chunk
  | [] => []
  | x :: xs => insertChunkDesc x (sortChunksDesc xs)

/-- Ranking over a fixed candidate list: sort all produced chunks by score
descending (stably) and keep the first `topK`. -/
def rankedChunksOf (candidates : List Doc) (keywords : List (List Char)) (topK : Nat) :
    List Chunk :=
  (sortChunksDesc (processDocs candidates keywords)).take topK

/-- Embedding of `retrieveChunks(question, docLimit, topK, docId)`: select
candidates, chunk and score them in discovery order, sort stably by score
descending, truncate to `topK`.  The early `return []` paths coincide with
ranking an empty chunk list. -/
def retrieveChunks (repo : Repo) (question : List Char) (docLimit topK : Nat)
    (docId : Option (List Char)) : List Chunk :=
  (sortChunksDesc (discoveredChunks repo question docLimit docId)).take topK

/-! ## Concrete fixtures used by witnesses and counterexamples -/

/-- A retrieved chunk fixture (`chunkId` c0, `docId` d, range `[0, 10]`). -/
def chunkD : Chunk :=
  { chunkId := ("c0").toList, docId := ("d").toList, docName := ("n").toList,
    text := ("hello").toList, startChar := 0, endChar := 10, score := 0 }

/-- A claimed citation whose `chunkId` matches no retrieved chunk although
its `docId` and range `[1, 2]` would match `chunkD` by containment. -/
def ccStale : ClaimedCitation :=
  { chunkId := some (("nope").toList), docId := some (("d").toList),
    startChar := some 1, endChar := some 2, quote := none }

/-- `ccStale` without the stale `chunkId`. -/
def ccNoId : ClaimedCitation :=
  { chunkId := none, docId := some (("d").toList),
    startChar := some 1, endChar := some 2, quote := none }

/-- A claimed citation matching `chunkD` by `chunkId` whose claimed range
`[20, 30]` is disjoint from `chunkD`'s range `[0, 10]`. -/
def ccDisjoint : ClaimedCitation :=
  { chunkId := some (("c0").toList), docId := none,
    startChar := some 20, endChar := some 30, quote := some (("q").toList) }

/-- A claimed citation matching `chunkD` by `chunkId`, with claimed range
`[2, 5]` inside `chunkD`'s range. -/
def ccInside : ClaimedCitation :=
  { chunkId := some (("c0").toList), docId := none,
    startChar := some 2, endChar := some 5, quote := some (("q").toList) }

/-- A claimed citation matching `chunkD` by `chunkId`, whose quote collapses
and trims to 199 letters, a space and one more letter — 201 characters, so
the 200-character cap cuts right after the space. -/
def ccLongQuote : ClaimedCitation :=
  { chunkId := some (("c0").toList), docId := none,
    startChar := none, endChar := none,
    quote := some (List.replicate 199 'a' ++ [' ', 'b']) }

/-- A well-formed claimed citation matching `chunkD` by `chunkId`. -/
def ccGood : ClaimedCitation :=
  { chunkId := some (("c0").toList), docId := none,
    startChar := none, endChar := none, quote := some (("q").toList) }

/-- The duplicate-keyword fixture for the scoring claim. -/
def kwsDup : List (List Char) :=
  [("alpha").toList, ("alpha").toList, ("beta").toList]

/-- A document fixture (id a, non-blank cached text). -/
def docA : Doc :=
  { id := ("a").toList, originalName := ("A").toList,
    contentText := ("hi").toList, extractedText := none }

/-- A corpus holding only `docA`, whose search collaborator always returns
an empty result list. -/
def repoA : Repo :=
  { docs := [docA], searchIds := fun _ _ => Except.ok [] }

/-- A corpus holding only `docA`, whose search collaborator always throws. -/
def repoThrow : Repo :=
  { docs := [docA], searchIds := fun _ _ => Except.error () }

/-- The single chunk that retrieval produces from `docA` when the question
has no keywords. -/
def chunkHi : Chunk :=
  { chunkId := ("a_chunk_0").toList, docId := ("a").toList,
    docName := ("A").toList, text := ("hi").toList,
    startChar := 0, endChar := 2, score := 0 }

/-! ## Helper lemmas about the stable sort -/

lemma mem_insertChunkDesc {a x : Chunk} {l : List Chunk} :
    a ∈ insertChunkDesc x l ↔ a = x ∨ a ∈ l := by
  induction l with
  | nil => simp [insertChunkDesc]
  | cons y ys ih =>
    by_cases h : x.score < y.score
    · simp only [insertChunkDesc, if_pos h, List.mem_cons, ih]
      tauto
    · simp only [insertChunkDesc, if_neg h, List.mem_cons]

lemma pairwise_insertChunkDesc {x : Chunk} {l : List Chunk}
    (hl : l.Pairwise (fun a b => b.score ≤ a.score)) :
    (insertChunkDesc x l).Pairwise (fun a b => b.score ≤ a.score) := by
  induction l with
  | nil => simp [insertChunkDesc]
  | cons y ys ih =>
    rcases List.pairwise_cons.mp hl with ⟨hy, hys⟩
    by_cases h : x.score < y.score
    · rw [insertChunkDesc, if_pos h]
      refine List.pairwise_cons.mpr ⟨?_, ih hys⟩
      intro b hb
      rcases mem_insertChunkDesc.mp hb with rfl | hb
      · exact le_of_lt h
      · exact hy b hb
    · rw [insertChunkDesc, if_neg h]
      refine List.pairwise_cons.mpr ⟨?_, hl⟩
      intro b hb
      rcases List.mem_cons.mp hb with rfl | hb
      · exact le_of_not_lt h
      · exact le_trans (hy b hb) (le_of_not_lt h)

lemma pairwise_sortChunksDesc (l : List Chunk) :
    (sortChunksDesc l).Pairwise (fun a b => b.score ≤ a.score) := by
  induction l with
  | nil => simp [sortChunksDesc]
  | cons x xs ih => exact pairwise_insertChunkDesc ih

lemma filter_insertChunkDesc (s : ℚ) (x : Chunk) (l : List Chunk) :
    (insertChunkDesc x l).filter (fun c => decide (c.score = s)) =
      (x :: l).filter (fun c => decide (c.score = s)) := by
  induction l with
  | nil => rfl
  | cons y ys ih =>
    by_cases hxy : x.score < y.score
    · rw [insertChunkDesc, if_pos hxy]
      by_cases hy : y.score = s
      · have hx : ¬ x.score = s := fun hxs => absurd hxy (by rw [hxs, hy]; exact lt_irrefl s)
        simp [List.filter_cons, hy, hx, ih]
      · by_cases hx : x.score = s <;> simp [List.filter_cons, hx, hy, ih]
    · rw [insertChunkDesc, if_neg hxy]

lemma filter_sortChunksDesc (s : ℚ) (l : List Chunk) :
    (sortChunksDesc l).filter (fun c => decide (c.score = s)) =
      l.filter (fun c => decide (c.score = s)) := by
  induction l with
  | nil => rfl
  | cons x xs ih =>
    rw [sortChunksDesc, filter_insertChunkDesc]
    by_cases hx : x.score = s <;> simp [List.filter_cons, hx, ih]

lemma mem_sortChunksDesc {a : Chunk} {l : List Chunk} :
    a ∈ sortChunksDesc l ↔ a ∈ l := by
  induction l with
  | nil => simp [sortChunksDesc]
  | cons x xs ih => simp [sortChunksDesc, mem_insertChunkDesc, ih]

/-! ## Helper lemmas about quote sanitization -/

lemma mem_collapseWs_ws : ∀ {s : List Char} {c : Char},
    c ∈ collapseWs s → isJsWs c = true → c = ' '
  | [], c, hc, _ => by simp [collapseWs] at hc
  | [a], c, hc, hwc => by
    by_cases ha : isJsWs a
    · rw [collapseWs, if_pos ha] at hc
      simpa using hc
    · rw [collapseWs, if_neg ha] at hc
      simp at hc
      exact absurd hwc (by rw [hc]; simpa using ha)
  | a :: d :: rest, c, hc, hwc => by
    by_cases ha : isJsWs a
    · rw [collapseWs, if_pos ha] at hc
      by_cases hd : isJsWs d
      · rw [if_pos hd] at hc
        exact mem_collapseWs_ws hc hwc
      · rw [if_neg hd] at hc
        rcases List.mem_cons.mp hc with rfl | hc
        · rfl
        · exact mem_collapseWs_ws hc hwc
    · rw [collapseWs, if_neg ha] at hc
      rcases List.mem_cons.mp hc with rfl | hc
      · exact absurd hwc (by simpa using ha)
      · exact mem_collapseWs_ws hc hwc

lemma head?_dropWhile_ws : ∀ (l : List Char) {a : Char},
    (l.dropWhile isJsWs).head? = some a → isJsWs a = false
  | [], a, h => by simp [List.dropWhile] at h
  | b :: t, a, h => by
    by_cases hb : isJsWs b
    · rw [List.dropWhile_cons, if_pos hb] at h
      exact head?_dropWhile_ws t h
    · rw [List.dropWhile_cons, if_neg hb] at h
      simp at h
      rw [← h]
      simpa using hb

lemma trimChars_subset (s : List Char) : trimChars s ⊆ s := by
  intro a ha
  rw [trimChars, List.mem_reverse] at ha
  have h1 := (List.dropWhile_sublist (l := (s.dropWhile isJsWs).reverse) isJsWs).subset ha
  rw [List.mem_reverse] at h1
  exact (List.dropWhile_sublist (l := s) isJsWs).subset h1

lemma head?_trimChars_ws {s : List Char} {a : Char}
    (h : (trimChars s).head? = some a) : isJsWs a = false := by
  rw [trimChars, ← List.getLast?_eq_head?_reverse] at h
  have hsplit := List.takeWhile_append_dropWhile isJsWs (s.dropWhile isJsWs).reverse
  have h2 : ((s.dropWhile isJsWs).reverse).getLast? = some a := by
    rw [← hsplit, List.getLast?_append, h]
    rfl
  rw [List.getLast?_eq_head?_reverse, List.reverse_reverse] at h2
  exact head?_dropWhile_ws s h2

lemma getLast?_trimChars_ws {s : List Char} {a : Char}
    (h : (trimChars s).getLast? = some a) : isJsWs a = false := by
  rw [trimChars, List.getLast?_eq_head?_reverse, List.reverse_reverse] at h
  exact head?_dropWhile_ws (s.dropWhile isJsWs).reverse h

lemma mem_of_head?_eq_some {α : Type} {l : List α} {a : α} (h : l.head? = some a) :
    a ∈ l := by
  cases l with
  | nil => simp at h
  | cons b t =>
    simp at h
    subst h
    exact List.mem_cons_self _ _

lemma mem_of_getLast?_eq_some {α : Type} {l : List α} {a : α} (h : l.getLast? = some a) :
    a ∈ l := by
  rw [List.getLast?_eq_head?_reverse] at h
  exact List.mem_reverse.mp (mem_of_head?_eq_some h)

lemma sanitizeQuote_length (s : List Char) (n : Nat) : (sanitizeQuote s n).length ≤ n := by
  rw [sanitizeQuote]
  split
  · rw [List.length_take]
    exact min_le_left _ _
  · omega

lemma sanitizeQuote_mem_ws {s : List Char} {n : Nat} {c : Char}
    (hc : c ∈ sanitizeQuote s n) (hwc : isJsWs c = true) : c = ' ' := by
  rw [sanitizeQuote] at hc
  have hc2 : c ∈ trimChars (collapseWs s) := by
    revert hc
    split
    · exact fun hc => List.take_subset _ _ hc
    · exact fun hc => hc
  exact mem_collapseWs_ws (trimChars_subset _ hc2) hwc

lemma sanitizeQuote_head {s : List Char} {n : Nat} {a : Char}
    (h : (sanitizeQuote s n).head? = some a) : isJsWs a = false := by
  rw [sanitizeQuote] at h
  revert h
  split
  · rw [List.head?_take]
    split
    · intro h
      simp at h
    · exact head?_trimChars_ws
  · exact head?_trimChars_ws

lemma sanitizeQuote_getLast {s : List Char} {n : Nat} {a : Char}
    (h : (sanitizeQuote s n).getLast? = some a) :
    isJsWs a = false ∨ (a = ' ' ∧ (sanitizeQuote s n).length = n) := by
  by_cases hwa : isJsWs a
  · right
    refine ⟨sanitizeQuote_mem_ws (mem_of_getLast?_eq_some h) hwa, ?_⟩
    rw [sanitizeQuote] at h ⊢
    revert h
    split
    · intro _
      rw [List.length_take]
      omega
    · intro h
      exact absurd (getLast?_trimChars_ws h) (by simpa using hwa)
  · left
    simpa using hwa

/-! ## Helper lemmas about citation validation -/

lemma findMatchingChunk_mem {c : ClaimedCitation} {chunks : List Chunk} {ch : Chunk}
    (h : findMatchingChunk c chunks = some ch) : ch ∈ chunks := by
  rw [findMatchingChunk] at h
  split at h
  · exact absurd h (by simp)
  · split at h
    · exact List.mem_of_find?_eq_some h
    · split at h
      · split at h
        · exact List.mem_of_find?_eq_some h
        · exact absurd h (by simp)
      · exact absurd h (by simp)

lemma validateCitation_fields {c : ClaimedCitation} {chunks : List Chunk} {v : Citation}
    (h : validateCitation c chunks = some v) :
    ∃ ch, findMatchingChunk c chunks = some ch ∧ ch ∈ chunks ∧
      v.chunkId = ch.chunkId ∧ v.docId = ch.docId ∧ v.docName = ch.docName ∧
      ∃ raw, v.quote = sanitizeQuote raw 200 := by
  rw [validateCitation] at h
  split at h
  · exact absurd h (by simp)
  · rename_i ch hch
    refine ⟨ch, hch, findMatchingChunk_mem hch, ?_⟩
    simp only [Option.some.injEq] at h
    subst h
    refine ⟨rfl, rfl, rfl, ?_⟩
    dsimp only
    split
    · split
      · exact ⟨_, rfl⟩
      · exact ⟨_, rfl⟩
    · exact ⟨_, rfl⟩

lemma validateLoop_mem {retrieved : List Chunk} {limit : Nat} :
    ∀ {cs : List ClaimedCitation} {seen : List (List Char)} {count : Nat} {v : Citation},
      v ∈ validateLoop retrieved limit cs seen count →
      ∃ c ∈ cs, validateCitation c retrieved = some v
  | [], _, _, v, h => by simp [validateLoop] at h
  | c :: rest, seen, count, v, h => by
    rw [validateLoop] at h
    split at h
    · rcases validateLoop_mem h with ⟨c2, hc2, hv⟩
      exact ⟨c2, List.mem_cons_of_mem _ hc2, hv⟩
    · rename_i v2 hv2
      split at h
      · rcases validateLoop_mem h with ⟨c2, hc2, hv⟩
        exact ⟨c2, List.mem_cons_of_mem _ hc2, hv⟩
      · split at h
        · simp at h
          subst h
          exact ⟨c, List.mem_cons_self _ _, hv2⟩
        · rcases List.mem_cons.mp h with rfl | h2
          · exact ⟨c, List.mem_cons_self _ _, hv2⟩
          · rcases validateLoop_mem h2 with ⟨c2, hc2, hv⟩
            exact ⟨c2, List.mem_cons_of_mem _ hc2, hv⟩

lemma validateLoop_eq_nil {retrieved : List Chunk} {limit : Nat} :
    ∀ {cs : List ClaimedCitation} {seen : List (List Char)} {count : Nat},
      (∀ c ∈ cs, validateCitation c retrieved = none) →
      validateLoop retrieved limit cs seen count = []
  | [], _, _, _ => rfl
  | c :: rest, seen, count, hall => by
    rw [validateLoop]
    have hc := hall c (List.mem_cons_self _ _)
    rw [hc]
    exact validateLoop_eq_nil (fun c2 hc2 => hall c2 (List.mem_cons_of_mem _ hc2))

lemma validateLoop_length (retrieved : List Chunk) (limit : Nat) :
    ∀ (cs : List ClaimedCitation) (seen : List (List Char)) (count : Nat),
      (validateLoop retrieved limit cs seen count).length ≤ max (limit - count) 1
  | [], _, _ => by simp [validateLoop]
  | c :: rest, seen, count => by
    rw [validateLoop]
    split
    · exact validateLoop_length retrieved limit rest seen count
    · rename_i v2 hv2
      split
      · exact validateLoop_length retrieved limit rest seen count
      · split
        · simp
        · rename_i hlim
          have ih := validateLoop_length retrieved limit rest (v2.chunkId :: seen) (count + 1)
          simp only [List.length_cons]
          omega

lemma effLimit_le_ten (m : Int) : effLimit m ≤ 10 := by
  rw [effLimit]
  split <;> omega

lemma buildBasedOnDocs_sources {llm : Option (List ClaimedCitation)} {chunks : List Chunk}
    {m : Int} {v : Citation} (h : v ∈ buildBasedOnDocs llm chunks m) :
    (∃ c, validateCitation c chunks = some v) ∨ ∃ ch ∈ chunks, v = chunkToCitation ch := by
  rw [buildBasedOnDocs] at h
  split at h
  · rcases llm with _ | l
    · simp [validatedOf] at h
    · have hv : validatedOf (some l) chunks (effLimit m)
          = if l.isEmpty then [] else validateLoop chunks (effLimit m) l [] 0 := rfl
      rw [hv] at h
      split at h
      · simp at h
      · rcases validateLoop_mem h with ⟨c, _, hc⟩
        exact Or.inl ⟨c, hc⟩
  · rcases List.mem_map.mp h with ⟨ch, hch, hv⟩
    exact Or.inr ⟨ch, List.mem_of_mem_take hch, hv.symm⟩

/-! ## Claim theorems -/

/-- C1: every citation returned by `buildBasedOnDocs` — on the
validated-citation path and on the fallback path alike — carries a
`chunkId` equal to the `chunkId` of some element of the retrieved-chunk
list it was validated against. -/
theorem buildBasedOnDocs_chunkId_from_retrieval
    (llm : Option (List ClaimedCitation)) (chunks : List Chunk) (m : Int)
    (v : Citation) (hv : v ∈ buildBasedOnDocs llm chunks m) :
    ∃ ch ∈ chunks, v.chunkId = ch.chunkId := by
  rcases buildBasedOnDocs_sources hv with ⟨c, hc⟩ | ⟨ch, hch, rfl⟩
  · rcases validateCitation_fields hc with ⟨ch, _, hmem, hid, _⟩
    exact ⟨ch, hmem, hid⟩
  · exact ⟨ch, hch, rfl⟩

/-- Witness for C1 at a concrete input: the fallback citation built from
`chunkD` references `chunkD`'s own `chunkId`. -/
theorem buildBasedOnDocs_chunkId_from_retrieval_witness :
    ∃ ch ∈ [chunkD], (chunkToCitation chunkD).chunkId = ch.chunkId :=
  buildBasedOnDocs_chunkId_from_retrieval none [chunkD] 3 (chunkToCitation chunkD) (by decide)

/-- C2 counterexample: the claim `ccStale` carries a `chunkId` matching no
retrieved chunk together with a `docId` and a range `[1, 2]` contained in
`chunkD`'s range `[0, 10]`, yet `findMatchingChunk` discards it (`none`)
instead of matching it by the range rule; the same claim without the stale
`chunkId` (`ccNoId`) is matched by the range rule, showing the range rule
alone would have matched. -/
theorem findMatchingChunk_no_range_fallthrough :
    findMatchingChunk ccStale [chunkD] = none
    ∧ ccStale.docId = some chunkD.docId
    ∧ ccStale.startChar = some 1 ∧ ccStale.endChar = some 2
    ∧ chunkD.startChar ≤ 1 ∧ (2 : Int) ≤ chunkD.endChar
    ∧ chunkD.chunkId ≠ ("nope").toList
    ∧ findMatchingChunk ccNoId [chunkD] = some chunkD := by
  refine ⟨by decide, by decide, by decide, by decide, by decide, by decide, by decide, by decide⟩

/-- C2 amended: matching priority as implemented.  If the claim carries a
truthy `chunkId`, the match is decided by `chunkId` alone — when no
retrieved chunk has that `chunkId` the claim is discarded, with no fallback
to the range rule.  Only a claim without a truthy `chunkId` is matched by
`docId` plus range containment, and a claim with neither a truthy `chunkId`
nor (truthy `docId` with both numeric bounds) is discarded. -/
theorem findMatchingChunk_priority (c : ClaimedCitation) (chunks : List Chunk) :
    (truthyStr c.chunkId = true →
      findMatchingChunk c chunks
        = chunks.find? (fun ch => some ch.chunkId == c.chunkId))
    ∧ (truthyStr c.chunkId = false → truthyStr c.docId = true →
        ∀ s e : Int, c.startChar = some s → c.endChar = some e →
        findMatchingChunk c chunks
          = chunks.find? (fun ch =>
              (some ch.docId == c.docId) && decide (ch.startChar ≤ s)
                && decide (e ≤ ch.endChar)))
    ∧ (truthyStr c.chunkId = false →
        (truthyStr c.docId = false ∨ c.startChar = none ∨ c.endChar = none) →
        findMatchingChunk c chunks = none) := by
  rcases hchunks : chunks with _ | ⟨k, ks⟩
  · refine ⟨fun _ => by simp [findMatchingChunk], fun _ _ s e _ _ => by simp [findMatchingChunk],
      fun _ _ => by simp [findMatchingChunk]⟩
  · refine ⟨?_, ?_, ?_⟩
    · intro hid
      rw [findMatchingChunk, if_neg (by simp), if_pos hid]
    · intro hid hdoc s e hs he
      rw [findMatchingChunk, if_neg (by simp), if_neg (by simp [hid]), if_pos hdoc, hs, he]
    · intro hid hrest
      rw [findMatchingChunk, if_neg (by simp), if_neg (by simp [hid])]
      rcases hrest with hdoc | hs | he
      · rw [if_neg (by simp [hdoc])]
      · split
        · rw [hs]
        · rfl
      · split
        · rcases c.startChar with _ | s
          · rfl
          · rw [he]
        · rfl

/-- Witness for C2 amended at a concrete input: `ccStale` has a truthy
`chunkId`, so its match is `find?` by `chunkId` over `[chunkD]` — which
fails, discarding the claim. -/
theorem findMatchingChunk_priority_witness :
    findMatchingChunk ccStale [chunkD]
      = ([chunkD].find? (fun ch => some ch.chunkId == ccStale.chunkId)) :=
  (findMatchingChunk_priority ccStale [chunkD]).1 (by decide)

/-- C3 counterexample: `ccDisjoint` (claimed range `[20, 30]`) survives
matching against `chunkD` (range `[0, 10]`) via its `chunkId`, and the
returned citation has `startChar = endChar = 20` — outside the matched
chunk's range, and not the (empty) intersection of the two ranges. -/
theorem validateCitation_range_escape :
    validateCitation ccDisjoint [chunkD]
      = some { docId := ("d").toList, docName := ("n").toList,
               chunkId := ("c0").toList, startChar := 20, endChar := 20,
               quote := ("q").toList }
    ∧ chunkD.endChar = 10 ∧ ¬ ((20 : Int) ≤ 10) := by
  refine ⟨by decide, by decide, by decide⟩

/-- C3 amended: for a claim matched to `chunk`, the returned citation has
`startChar = max(chunk.startChar, claimed startChar or chunk.startChar)` and
`endChar = max(startChar, min(chunk.endChar, claimed endChar or
chunk.endChar))`.  Whenever the claimed start does not lie beyond the
chunk's end, the returned range stays inside the chunk, and whenever the
claim's effective range actually intersects the chunk's range the returned
range is exactly that intersection; but a claimed start beyond the chunk's
end yields the collapsed out-of-range point `[start, start]`. -/
theorem validateCitation_clamped_range (c : ClaimedCitation) (chunks : List Chunk)
    (chunk : Chunk) (hm : findMatchingChunk c chunks = some chunk)
    (hwf : chunk.startChar ≤ chunk.endChar) :
    ∃ v, validateCitation c chunks = some v
      ∧ v.startChar = max chunk.startChar (c.startChar.getD chunk.startChar)
      ∧ v.endChar = max v.startChar (min chunk.endChar (c.endChar.getD chunk.endChar))
      ∧ (c.startChar.getD chunk.startChar ≤ chunk.endChar →
          chunk.startChar ≤ v.startChar ∧ v.endChar ≤ chunk.endChar)
      ∧ (max chunk.startChar (c.startChar.getD chunk.startChar)
            ≤ min chunk.endChar (c.endChar.getD chunk.endChar) →
          v.startChar = max chunk.startChar (c.startChar.getD chunk.startChar)
            ∧ v.endChar = min chunk.endChar (c.endChar.getD chunk.endChar)) := by
  obtain ⟨cid, cdoc, cs0, ce0, cq⟩ := c
  rw [validateCitation.eq_def, hm]
  rcases cs0 with _ | s <;> rcases ce0 with _ | e <;>
    refine ⟨_, rfl, ?_, ?_, fun hs => ?_, fun hint => ?_⟩ <;>
    simp_all

/-- Witness for C3 amended at a concrete input: claim `ccInside` with range
`[2, 5]` against `chunkD` with range `[0, 10]`. -/
theorem validateCitation_clamped_range_witness :
    ∃ v, validateCitation ccInside [chunkD] = some v
      ∧ v.startChar = max chunkD.startChar (ccInside.startChar.getD chunkD.startChar)
      ∧ v.endChar = max v.startChar
          (min chunkD.endChar (ccInside.endChar.getD chunkD.endChar))
      ∧ (ccInside.startChar.getD chunkD.startChar ≤ chunkD.endChar →
          chunkD.startChar ≤ v.startChar ∧ v.endChar ≤ chunkD.endChar)
      ∧ (max chunkD.startChar (ccInside.startChar.getD chunkD.startChar)
            ≤ min chunkD.endChar (ccInside.endChar.getD chunkD.endChar) →
          v.startChar = max chunkD.startChar (ccInside.startChar.getD chunkD.startChar)
            ∧ v.endChar = min chunkD.endChar (ccInside.endChar.getD chunkD.endChar)) :=
  validateCitation_clamped_range ccInside [chunkD] chunkD (by decide) (by decide)

lemma validatedOf_length (llm : Option (List ClaimedCitation)) (chunks : List Chunk)
    (limit : Nat) : (validatedOf llm chunks limit).length ≤ max limit 1 := by
  rcases llm with _ | l
  · simp [validatedOf]
  · have hv : validatedOf (some l) chunks limit
        = if l.isEmpty then [] else validateLoop chunks limit l [] 0 := rfl
    rw [hv]
    split
    · simp
    · simpa using validateLoop_length chunks limit l [] 0

lemma buildBasedOnDocs_length_le (llm : Option (List ClaimedCitation))
    (chunks : List Chunk) (m : Int) :
    (buildBasedOnDocs llm chunks m).length ≤ max (effLimit m) 1 := by
  rw [buildBasedOnDocs]
  split
  · exact validatedOf_length llm chunks (effLimit m)
  · rw [List.length_map]
    calc (chunks.take (effLimit m)).length ≤ effLimit m := List.length_take_le _ _
      _ ≤ max (effLimit m) 1 := le_max_left _ _

/-- C4 counterexample: with `maxCitations = 0` and no claimed citations the
result is not the first 0 entries of `retrievedChunks` (the empty list) —
`0` is falsy, so the default limit 3 applies and the single retrieved chunk
is returned. -/
theorem buildBasedOnDocs_zero_max_counterexample :
    buildBasedOnDocs none [chunkD] 0 ≠ ([chunkD].take 0).map chunkToCitation
    ∧ ([chunkD].take 0).map chunkToCitation = []
    ∧ buildBasedOnDocs none [chunkD] 0 = [chunkToCitation chunkD] := by
  refine ⟨by decide, by decide, by decide⟩

/-- C4 amended: when the claimed-citations list is absent, empty, or every
entry fails validation, `buildBasedOnDocs` returns exactly the first
`effLimit maxCitations` entries of `retrievedChunks` (not the first
`maxCitations`: the limit is clamped into `[0, 10]` with `0` falling back
to the default 3) converted to citations in retrieval order, each quote
being the sanitization of the first 200 characters of the chunk's text;
the function is total, and an absent `retrievedChunks` list (the empty
list) yields the empty result. -/
theorem buildBasedOnDocs_fallback (llm : Option (List ClaimedCitation))
    (chunks : List Chunk) (m : Int)
    (h : llm = none ∨ llm = some [] ∨
      ∃ l, llm = some l ∧ ∀ c ∈ l, validateCitation c chunks = none) :
    buildBasedOnDocs llm chunks m = (chunks.take (effLimit m)).map chunkToCitation := by
  rcases h with rfl | rfl | ⟨l, rfl, hall⟩
  · rfl
  · rfl
  · rw [buildBasedOnDocs]
    have hv : validatedOf (some l) chunks (effLimit m) = [] := by
      have he : validatedOf (some l) chunks (effLimit m)
          = if l.isEmpty then [] else validateLoop chunks (effLimit m) l [] 0 := rfl
      rw [he]
      split
      · rfl
      · exact validateLoop_eq_nil hall
    rw [hv]
    rfl

/-- Witness for C4 amended at a concrete input: one claimed citation whose
`chunkId` matches nothing is discarded, and the fallback returns the
retrieved chunk converted to a citation. -/
theorem buildBasedOnDocs_fallback_witness :
    buildBasedOnDocs (some [ccStale]) [chunkD] 2
      = ([chunkD].take (effLimit 2)).map chunkToCitation :=
  buildBasedOnDocs_fallback (some [ccStale]) [chunkD] 2
    (Or.inr (Or.inr ⟨[ccStale], rfl, by decide⟩))

/-- C5 counterexample: `scoreChunk` counts keyword-list entries with
multiplicity.  On chunk text `alpha` with keywords
`[alpha, alpha, beta]` the implementation scores `2/3`, while the claimed
formula — distinct occurring keywords over the number of keywords — gives
`1/3` (or `1/2` if the denominator were also deduplicated); duplicate
entries therefore do carry additional weight. -/
theorem scoreChunk_duplicates_counterexample :
    scoreChunk (("alpha").toList) kwsDup = 2/3
    ∧ scoreChunkDistinct (("alpha").toList) kwsDup = 1/3
    ∧ ((2 : ℚ)/3 ≠ 1/3) ∧ ((2 : ℚ)/3 ≠ 1/2) := by
  have h1 : countMatches (("alpha").toList) kwsDup = 2 := by decide
  have h2 : (kwsDup.dedup.filter
      (fun kw => containsSub (lowerStr (("alpha").toList)) (lowerStr kw))).length = 1 := by
    decide
  have h3 : kwsDup.length = 3 := by decide
  refine ⟨?_, ?_, by norm_num, by norm_num⟩
  · rw [scoreChunk, if_neg (by decide), h1, h3]
    norm_num
  · rw [scoreChunkDistinct, if_neg (by decide), h2, h3]
    norm_num

/-- C5 amended: each keyword-list entry counts with multiplicity, so the
implemented score agrees with the claimed distinct-keyword formula exactly
when the keyword list has no duplicates; the claim's two examples (over
duplicate-free lists) hold as stated. -/
theorem scoreChunk_multiplicity :
    (∀ (t : List Char) (kws : List (List Char)), kws.Nodup →
      scoreChunk t kws = scoreChunkDistinct t kws)
    ∧ scoreChunk (("alpha beta").toList) [("alpha").toList, ("beta").toList] = 1
    ∧ scoreChunk (("alpha").toList) [("alpha").toList, ("beta").toList] = 1/2 := by
  refine ⟨?_, ?_, ?_⟩
  · intro t kws hnd
    rw [scoreChunk, scoreChunkDistinct, countMatches, List.dedup_eq_self.mpr hnd]
  · have h1 : countMatches (("alpha beta").toList)
        [("alpha").toList, ("beta").toList] = 2 := by decide
    rw [scoreChunk, if_neg (by decide), h1]
    norm_num
  · have h1 : countMatches (("alpha").toList)
        [("alpha").toList, ("beta").toList] = 1 := by decide
    rw [scoreChunk, if_neg (by decide), h1]
    norm_num

/-- Witness for C5 amended at a concrete input: a duplicate-free keyword
list on which the implementation and the distinct formula agree. -/
theorem scoreChunk_multiplicity_witness :
    scoreChunk (("alpha").toList) [("alpha").toList, ("beta").toList]
      = scoreChunkDistinct (("alpha").toList) [("alpha").toList, ("beta").toList] :=
  scoreChunk_multiplicity.1 _ _ (by decide)

/-- C10 counterexample: a negative `maxCitations` yields limit 0, yet with a
valid claimed citation the result is not empty — the loop pushes the first
validated citation before checking the limit. -/
theorem buildBasedOnDocs_negative_counterexample :
    (-5 : Int) < 0
    ∧ buildBasedOnDocs (some [ccGood]) [chunkD] (-5) ≠ []
    ∧ (buildBasedOnDocs (some [ccGood]) [chunkD] (-5)).length = 1 := by
  refine ⟨by decide, by decide, by decide⟩

/-- C10 amended: the returned list always holds at most 10 citations, the
limit being `max(0, min(parseInt(maxCitations) or 3, 10))` with
`maxCitations = 0` falsy and yielding the default 3; a negative
`maxCitations` yields limit 0, which gives an empty result on the fallback
path but still up to one citation on the validated path (the limit check
happens after the push). -/
theorem buildBasedOnDocs_limit_bounds (llm : Option (List ClaimedCitation))
    (chunks : List Chunk) (m : Int) :
    (buildBasedOnDocs llm chunks m).length ≤ 10
    ∧ effLimit 0 = 3
    ∧ (m < 0 → effLimit m = 0 ∧ buildBasedOnDocs none chunks m = []
        ∧ ∀ l, (buildBasedOnDocs (some l) chunks m).length ≤ 1) := by
  refine ⟨?_, by decide, fun hm => ?_⟩
  · have h1 := buildBasedOnDocs_length_le llm chunks m
    have h2 := effLimit_le_ten m
    omega
  · have h0 : effLimit m = 0 := by
      rw [effLimit]
      split
      · omega
      · omega
    refine ⟨h0, ?_, fun l => ?_⟩
    · rw [buildBasedOnDocs, h0]
      rfl
    · have h1 := buildBasedOnDocs_length_le (some l) chunks m
      omega

/-- Witness for C10 amended at a concrete input with a negative limit. -/
theorem buildBasedOnDocs_limit_bounds_witness :
    (buildBasedOnDocs (some [ccGood]) [chunkD] (-2)).length ≤ 10
    ∧ effLimit (-2) = 0
    ∧ buildBasedOnDocs none [chunkD] (-2) = []
    ∧ (buildBasedOnDocs (some [ccGood]) [chunkD] (-2)).length ≤ 1 :=
  ⟨(buildBasedOnDocs_limit_bounds (some [ccGood]) [chunkD] (-2)).1,
    ((buildBasedOnDocs_limit_bounds (some [ccGood]) [chunkD] (-2)).2.2 (by decide)).1,
    ((buildBasedOnDocs_limit_bounds (some [ccGood]) [chunkD] (-2)).2.2 (by decide)).2.1,
    ((buildBasedOnDocs_limit_bounds (some [ccGood]) [chunkD] (-2)).2.2 (by decide)).2.2 [ccGood]⟩

/-- C9 counterexample: an LLM quote of 199 letters, a space and another
letter collapses and trims to itself (201 characters), and the 200-character
cap then cuts right after the space — the emitted quote ends in a space, so
it is not trimmed. -/
theorem buildBasedOnDocs_quote_trailing_space :
    buildBasedOnDocs (some [ccLongQuote]) [chunkD] 3
      = [{ docId := ("d").toList, docName := ("n").toList,
           chunkId := ("c0").toList, startChar := 0, endChar := 10,
           quote := List.replicate 199 'a' ++ [' '] }]
    ∧ (List.replicate 199 'a' ++ [' ']).getLast? = some ' '
    ∧ isJsWs ' ' = true
    ∧ trimChars (List.replicate 199 'a' ++ [' ']) ≠ List.replicate 199 'a' ++ [' '] := by
  refine ⟨by decide, by decide, by decide, by decide⟩

/-- C9 amended: every citation emitted by `buildBasedOnDocs`, on every path,
carries a quote of at most 200 characters whose whitespace characters are
all plain spaces (so no newline or tab survives sanitization), which never
begins with whitespace, and which never ends with whitespace except that
the 200-character hard cap can leave a single trailing space — in which
case the quote is exactly 200 characters long. -/
theorem buildBasedOnDocs_quote_sanitized (llm : Option (List ClaimedCitation))
    (chunks : List Chunk) (m : Int) (v : Citation)
    (hv : v ∈ buildBasedOnDocs llm chunks m) :
    v.quote.length ≤ 200
    ∧ (∀ ch ∈ v.quote, isJsWs ch = true → ch = ' ')
    ∧ (∀ ch, v.quote.head? = some ch → isJsWs ch = false)
    ∧ (∀ ch, v.quote.getLast? = some ch →
        isJsWs ch = false ∨ (ch = ' ' ∧ v.quote.length = 200)) := by
  have hraw : ∃ raw, v.quote = sanitizeQuote raw 200 := by
    rcases buildBasedOnDocs_sources hv with ⟨c, hc⟩ | ⟨ch, _, rfl⟩
    · rcases validateCitation_fields hc with ⟨_, _, _, _, _, _, hq⟩
      exact hq
    · exact ⟨_, rfl⟩
  rcases hraw with ⟨raw, hq⟩
  rw [hq]
  exact ⟨sanitizeQuote_length raw 200,
    fun ch hch hw => sanitizeQuote_mem_ws hch hw,
    fun ch hch => sanitizeQuote_head hch,
    fun ch hch => sanitizeQuote_getLast hch⟩

/-- Witness for C9 amended at a concrete input: the fallback citation built
from `chunkD`. -/
theorem buildBasedOnDocs_quote_sanitized_witness :
    (chunkToCitation chunkD).quote.length ≤ 200
    ∧ (∀ ch ∈ (chunkToCitation chunkD).quote, isJsWs ch = true → ch = ' ')
    ∧ (∀ ch, (chunkToCitation chunkD).quote.head? = some ch → isJsWs ch = false)
    ∧ (∀ ch, (chunkToCitation chunkD).quote.getLast? = some ch →
        isJsWs ch = false ∨ (ch = ' ' ∧ (chunkToCitation chunkD).quote.length = 200)) :=
  buildBasedOnDocs_quote_sanitized none [chunkD] 3 (chunkToCitation chunkD) (by decide)

lemma mem_docChunksFrom_docId {d : Doc} {kws : List (List Char)} :
    ∀ {i : Nat} {ws : List TextWindow} {c : Chunk},
      c ∈ docChunksFrom d kws i ws → c.docId = d.id
  | _, [], c, h => by simp [docChunksFrom] at h
  | i, w :: ws, c, h => by
    rw [docChunksFrom] at h
    rcases List.mem_cons.mp h with rfl | h2
    · rfl
    · exact mem_docChunksFrom_docId h2

lemma mem_mkDocChunks_docId {d : Doc} {kws : List (List Char)} {c : Chunk}
    (h : c ∈ mkDocChunks d kws) : c.docId = d.id := by
  simp only [mkDocChunks] at h
  split at h
  · simp at h
  · exact mem_docChunksFrom_docId h

lemma candidateDocsOf_truthy (repo : Repo) (q : List Char) (dl : Nat)
    (did : Option (List Char)) (h : truthyStr did = true) :
    candidateDocsOf repo q dl did
      = match repo.getDocumentById (did.getD []) with
        | some doc => some [doc]
        | none => none := by
  simp only [candidateDocsOf]
  rw [if_pos h]

/-- C6: retrieval returns at most `topK` chunks, in descending score order,
and the ranking is stable — for every score value, the returned chunks with
that score form a prefix of the discovery-ordered chunks with that score
(candidate-document order, then chunk index within the document). -/
theorem retrieveChunks_ranked (repo : Repo) (q : List Char) (dl tk : Nat)
    (did : Option (List Char)) :
    (retrieveChunks repo q dl tk did).length ≤ tk
    ∧ (retrieveChunks repo q dl tk did).Pairwise (fun a b => b.score ≤ a.score)
    ∧ ∀ s : ℚ, ∃ rest,
        (discoveredChunks repo q dl did).filter (fun c => decide (c.score = s))
          = (retrieveChunks repo q dl tk did).filter (fun c => decide (c.score = s))
              ++ rest := by
  simp only [retrieveChunks]
  refine ⟨List.length_take_le _ _,
    List.Pairwise.sublist (List.take_sublist _ _) (pairwise_sortChunksDesc _),
    fun s => ?_⟩
  refine ⟨(List.drop tk (sortChunksDesc (discoveredChunks repo q dl did))).filter
    (fun c => decide (c.score = s)), ?_⟩
  rw [← filter_sortChunksDesc s (discoveredChunks repo q dl did)]
  conv_lhs => rw [← List.take_append_drop tk (sortChunksDesc (discoveredChunks repo q dl did))]
  rw [List.filter_append]

/-- C7 counterexample: the empty string is a non-null explicit document id,
no document has the empty id, yet the result is not empty — `if (docId)` is
a truthiness test, so an empty-string id silently falls through to the
search/recency path and other documents' content appears. -/
theorem retrieveChunks_empty_docId_counterexample :
    repoA.getDocumentById [] = none
    ∧ retrieveChunks repoA (("a").toList) 5 5 (some []) ≠ []
    ∧ (retrieveChunks repoA (("a").toList) 5 5 (some [])).map Chunk.docId
        = [("a").toList] := by
  refine ⟨by decide, by decide, by decide⟩

/-- C7 amended: for every call with a truthy (non-null and non-empty)
explicit document id, every returned chunk comes from the document with that
id — in particular, if no such document exists the result is empty, and no
other document's content can appear; an empty-string id, however, is falsy
and takes the search/recency path instead. -/
theorem retrieveChunks_explicit_doc (repo : Repo) (q : List Char) (dl tk : Nat)
    (s : List Char) (hs : s ≠ []) (c : Chunk)
    (hc : c ∈ retrieveChunks repo q dl tk (some s)) :
    ∃ d, repo.getDocumentById s = some d ∧ c.docId = d.id := by
  have htr : truthyStr (some s) = true := by
    cases s
    · exact absurd rfl hs
    · rfl
  have hc2 : c ∈ discoveredChunks repo q dl (some s) :=
    mem_sortChunksDesc.mp (List.mem_of_mem_take hc)
  rw [discoveredChunks.eq_def, candidateDocsOf_truthy repo q dl (some s) htr] at hc2
  simp only [Option.getD_some] at hc2
  rcases hdoc : repo.getDocumentById s with _ | d
  · rw [hdoc] at hc2
    simp at hc2
  · rw [hdoc] at hc2
    have hmem : c ∈ processDocs [d] (extractKeywords q) := hc2
    rw [processDocs] at hmem
    simp only [List.flatMap_cons, List.flatMap_nil, List.append_nil] at hmem
    exact ⟨d, rfl, mem_mkDocChunks_docId hmem⟩

/-- Witness for C7 amended at a concrete input: document `a` exists, and the
single returned chunk carries its id. -/
theorem retrieveChunks_explicit_doc_witness :
    ∃ d, repoA.getDocumentById (("a").toList) = some d ∧ chunkHi.docId = d.id :=
  retrieveChunks_explicit_doc repoA (("a").toList) 5 5 (("a").toList)
    (by decide) chunkHi (by decide)

/-- C8: without an explicit document id, if the keyword-search collaborator
throws or returns no results, retrieval does not fail: candidate selection
falls back to the `docLimit` most recently created documents and ranking
proceeds normally over them. -/
theorem retrieveChunks_search_fallback (repo : Repo) (q : List Char) (dl tk : Nat)
    (h : repo.searchIds (searchQueryOf (extractKeywords q)) dl = Except.error ()
       ∨ repo.searchIds (searchQueryOf (extractKeywords q)) dl = Except.ok []) :
    retrieveChunks repo q dl tk none
      = rankedChunksOf (repo.listDocuments dl) (extractKeywords q) tk := by
  have hcand : candidateDocsOf repo q dl none = some (repo.docs.take dl) := by
    simp only [candidateDocsOf]
    rw [if_neg (by decide)]
    rcases h with hcase | hcase <;> rw [hcase] <;>
      simp [Repo.listDocuments, List.take_take]
  rw [retrieveChunks, rankedChunksOf, discoveredChunks.eq_def, hcand]
  rfl

/-- Witness for C8 at a concrete input: a search collaborator that always
throws degrades to recency-based candidates. -/
theorem retrieveChunks_search_fallback_witness :
    retrieveChunks repoThrow (("a").toList) 5 5 none
      = rankedChunksOf (repoThrow.listDocuments 5) (extractKeywords (("a").toList)) 5 :=
  retrieveChunks_search_fallback repoThrow (("a").toList) 5 5 (Or.inl rfl)
